import Mathlib

/-!
Shallow embedding of the `modelling_tools` simulation engine.

Source files embedded:
* `src/modelling_tools/runModel.py` — the standalone function `runModel`
  (embedded here as `runModelF`, state kept as a positional list of
  rationals, exactly as the Python keeps it as a list of floats);
* `src/modelling_tools/model.py` — the class method `Model.runModel`
  (embedded here as `runModelC`, state kept both as a positional list and
  as an insertion-ordered name→value dictionary, exactly as the Python
  keeps `stateVars_list` and `stateVars_dict`);
* `src/modelling_tools/model_summary.py` — the column check at the top of
  `plot_model_output`.

Machine floats are embedded as exact rationals (`ℚ`); every arithmetic
operation of the source is a rational operation here.  Python `int(x)`
(truncation toward zero) is `pytrunc`.  Python dictionaries are
insertion-ordered association lists.  The model-function plug-in is a
total function: every claim below concerns runs in which the model
function produces all referenced names, which is the documented contract.
`parameters` and `outputs_list` are passed to the Python model function on
every call but are constant for a whole run, so the function-variant
embedding bakes them into the model-function value.
-/

attribute [local semireducible] Rat.add Rat.mul Rat.inv Rat.sub

namespace ModellingTools

/-- Python `int(x)` on a float: truncation toward zero
(`Int.tdiv` of the reduced numerator by the denominator). -/
def pytrunc (q : ℚ) : ℤ :=
  q.num.tdiv q.den

/-- The sampling test of both `runModel` variants, performed after step
number `k` (the source's `intervalNo+1`) with `c` the source's
`cintAsInt`:
`remainder = k/cintAsInt - int(k/cintAsInt); remainder == 0`. -/
def sampleHit (k : ℕ) (c : ℤ) : Bool :=
  decide ((k : ℚ) / (c : ℚ) - ((pytrunc ((k : ℚ) / (c : ℚ))) : ℚ) = 0)

/-- Trial state of Runge-Kutta parts 1 and 2 (source cases 0 and 1):
`start[svno] + integInt * slopes[n][svno] / 2` element-wise. -/
def rkTrialHalf (h : ℚ) (s0 k : List ℚ) : List ℚ :=
  List.zipWith (fun s d => s + h * d / 2) s0 k

/-- Trial state of Runge-Kutta part 3 (source case 2):
`start[svno] + integInt * slopes[n][svno]` element-wise. -/
def rkTrialFull (h : ℚ) (s0 k : List ℚ) : List ℚ :=
  List.zipWith (fun s d => s + h * d) s0 k

/-- Final state of a step (source case 3):
`start[svno] + integInt/6*(slopes[0][svno]+2*slopes[1][svno]+2*slopes[2][svno]+slopes[3][svno])`. -/
def rkFinal (h : ℚ) (s0 k1 k2 k3 k4 : List ℚ) : List ℚ :=
  List.zipWith (fun s q => s + h / 6 * q) s0
    (List.zipWith (· + ·) k1
      (List.zipWith (· + ·) (List.zipWith (fun a b => 2 * a + 2 * b) k2 k3) k4))

/-- The model-function plug-in of `runModel.py`: given the state list and
the time it returns `(differential_return, variable_returns)`.  The
constant `parameters` and `outputs_list` arguments of the Python call are
baked into the function value. -/
abbrev ModelFnF := List ℚ → ℚ → List ℚ × List ℚ

/-- Everything one pass of the source's inner `for n in range(4)` loop
leaves behind: the advanced state list, the surviving `variable_returns`
binding (from the fourth call), and the instrumented log of the four
`model_function(...)` call sites, as (state passed, time passed) pairs. -/
structure StepF where
  newState : List ℚ
  varRet : List ℚ
  calls : List (List ℚ × ℚ)
deriving DecidableEq

/-- One iteration of the outer loop of `runModel.py` (lines 126-149): the
four `model_function` calls and the element-wise state updates.  The time
variable `t` is read by all four calls and is **not** changed inside the
loop (the source only increments `t` after the `for n in range(4)` loop). -/
def rk4StepF (mf : ModelFnF) (h : ℚ) (s0 : List ℚ) (t : ℚ) : StepF :=
  let r1 := mf s0 t
  let k1 := r1.1
  let s1 := rkTrialHalf h s0 k1
  let r2 := mf s1 t
  let k2 := r2.1
  let s2 := rkTrialHalf h s0 k2
  let r3 := mf s2 t
  let k3 := r3.1
  let s3 := rkTrialFull h s0 k3
  let r4 := mf s3 t
  let k4 := r4.1
  ⟨rkFinal h s0 k1 k2 k3 k4, r4.2, [(s0, t), (s1, t), (s2, t), (s3, t)]⟩

/-- The outer `for intervalNo in range(int(lastIntervalNo))` loop of
`runModel.py` (lines 125-159), recursing over the remaining step count.
`i` is the current `intervalNo`; after each step `t += integInt` and the
step's surviving `variable_returns` is appended to `model_results` when
`sampleHit (i+1) c`.  Returns (sampled rows, final state, final time). -/
def runStepsF (mf : ModelFnF) (h : ℚ) (c : ℤ) :
    ℕ → ℕ → List ℚ → ℚ → List (List ℚ) × List ℚ × ℚ
  | 0, _, s, t => ([], s, t)
  | n + 1, i, s, t =>
    let st := rk4StepF mf h s t
    let rest := runStepsF mf h c n (i + 1) st.newState (t + h)
    ((if sampleHit (i + 1) c then [st.varRet] else []) ++ rest.1, rest.2)

/-- The dataframe built by `pd.DataFrame(model_results, columns=outputs_list)`:
named columns over an ordered list of rows. -/
structure ResultTable where
  cols : List String
  rows : List (List ℚ)
deriving DecidableEq

instance : DecidableEq (Except String ResultTable) :=
  fun a b =>
    match a, b with
    | Except.ok x, Except.ok y =>
      if h : x = y then Decidable.isTrue (by rw [h]) else
        Decidable.isFalse (by intro hc; injection hc; exact h (by assumption))
    | Except.error x, Except.error y =>
      if h : x = y then Decidable.isTrue (by rw [h]) else
        Decidable.isFalse (by intro hc; injection hc; exact h (by assumption))
    | Except.ok _, Except.error _ => Decidable.isFalse (by intro hc; injection hc)
    | Except.error _, Except.ok _ => Decidable.isFalse (by intro hc; injection hc)

/-- `df[name].iloc[-1]`: the last value of a named column, `none` if the
column is missing or the table has no rows (Python raises there). -/
def lastColVal (tbl : ResultTable) (name : String) : Option ℚ := do
  let i ← tbl.cols.findIdx? (fun c => c = name)
  let r ← tbl.rows.getLast?
  r.get? i

/-- Resume setup of `runModel.py` (lines 117-119): the time is taken from
the previous table (`t = prev_output['t'].iloc[-1]`) but the state is
`initial_stateVars.copy()` — the line recovering the state from the
table's last row is commented out in the source. -/
def resumeSetupF (initial : List ℚ) (prev : ResultTable) : Option (ℚ × List ℚ) := do
  let t ← lastColVal prev "t"
  pure (t, initial)

/-- `runModel` of `runModel.py`.  `Start = 0` starts fresh at `t = 0`
recording one evaluation of the model function at the initial state
before integrating; `Start = 1` resumes via `resumeSetupF` and
concatenates the new rows after the previous table's rows; any other
`Start` value leaves `t`/`stateVars` unbound in the source (`NameError`).
The CSV-export branch only writes the same table to disk and is not
modelled. -/
def runModelF (Start : ℕ) (runTime integInt communInt : ℚ) (outputs_list : List String)
    (initial_stateVars : List ℚ) (mf : ModelFnF) (prev_output : Option ResultTable) :
    Except String ResultTable :=
  let cintAsInt := pytrunc (communInt / integInt)
  let numSteps := (pytrunc (runTime / integInt)).toNat
  if Start = 0 then
    let r0 := mf initial_stateVars 0
    let res := runStepsF mf integInt cintAsInt numSteps 0 initial_stateVars 0
    Except.ok ⟨outputs_list, r0.2 :: res.1⟩
  else if Start = 1 then
    match prev_output with
    | none => Except.error "TypeError: The variable prev_output must be a dataframe if Start == 1"
    | some p =>
      match resumeSetupF initial_stateVars p with
      | none => Except.error "KeyError: t"
      | some (t0, s0) =>
        let res := runStepsF mf integInt cintAsInt numSteps 0 s0 t0
        Except.ok ⟨outputs_list, p.rows ++ res.1⟩
  else
    Except.error "NameError: t referenced before assignment"

/-- Python's insertion-ordered `dict` from state-variable name to value,
as an association list in insertion order. -/
abbrev Dict := List (String × ℚ)

/-- `d[k] = v` on a Python dict: replace the value in place if the key
exists (keeping its position), otherwise append the new pair. -/
def dictSet (d : Dict) (k : String) (v : ℚ) : Dict :=
  if d.any (fun p => p.1 = k) then
    d.map (fun p => if p.1 = k then (k, v) else p)
  else
    d ++ [(k, v)]

/-- `d.update(kvs)` on Python dicts: set every key of `kvs` in turn. -/
def dictUpdate (d : Dict) (kvs : Dict) : Dict :=
  kvs.foldl (fun acc kv => dictSet acc kv.1 kv.2) d

/-- The model-function plug-in of `model.py`
(`input_model(parameters=..., stateVars=..., t=...)` returning the dict
`values`): given the state dict and the time it returns the name→value
valuation of every model quantity.  The constant `parameters` argument is
baked into the function value. -/
abbrev ModelFnC := Dict → ℚ → (String → ℚ)

/-- Everything one pass of the inner `for n in range(4)` loop of
`Model.runModel` leaves behind: the advanced `stateVars_list` and
`stateVars_dict`, the surviving `variable_returns` (from the fourth call),
and the instrumented log of the four `self.input_model(...)` call sites as
(state dict passed, time passed) pairs. -/
structure StepC where
  stateList : List ℚ
  stateDict : Dict
  varRet : List ℚ
  calls : List (Dict × ℚ)

/-- One iteration of the outer loop of `model.py` (lines 137-165): four
`input_model` calls, each followed by the element-wise update of
`stateVars_list` and by
`stateVars_dict.update(dict(zip(self.istate_vars.keys(), stateVars_list)))`.
As in `rk4StepF`, `t` is passed unchanged to all four calls. -/
def rk4StepC (mf : ModelFnC) (diffVars istateKeys outputs : List String)
    (h : ℚ) (sl0 : List ℚ) (sd0 : Dict) (t : ℚ) : StepC :=
  let v1 := mf sd0 t
  let k1 := diffVars.map v1
  let sl1 := rkTrialHalf h sl0 k1
  let sd1 := dictUpdate sd0 (istateKeys.zip sl1)
  let v2 := mf sd1 t
  let k2 := diffVars.map v2
  let sl2 := rkTrialHalf h sl0 k2
  let sd2 := dictUpdate sd1 (istateKeys.zip sl2)
  let v3 := mf sd2 t
  let k3 := diffVars.map v3
  let sl3 := rkTrialFull h sl0 k3
  let sd3 := dictUpdate sd2 (istateKeys.zip sl3)
  let v4 := mf sd3 t
  let k4 := diffVars.map v4
  let sl4 := rkFinal h sl0 k1 k2 k3 k4
  let sd4 := dictUpdate sd3 (istateKeys.zip sl4)
  ⟨sl4, sd4, outputs.map v4, [(sd0, t), (sd1, t), (sd2, t), (sd3, t)]⟩

/-- The outer `for intervalNo in range(int(lastIntervalNo))` loop of
`model.py` (lines 136-177), mirroring `runStepsF`.  Returns
(sampled rows, final state dict, final time). -/
def runStepsC (mf : ModelFnC) (diffVars istateKeys outputs : List String)
    (h : ℚ) (c : ℤ) :
    ℕ → ℕ → List ℚ → Dict → ℚ → List (List ℚ) × Dict × ℚ
  | 0, _, _, sd, t => ([], sd, t)
  | n + 1, i, sl, sd, t =>
    let st := rk4StepC mf diffVars istateKeys outputs h sl sd t
    let rest := runStepsC mf diffVars istateKeys outputs h c n (i + 1)
      st.stateList st.stateDict (t + h)
    ((if sampleHit (i + 1) c then [st.varRet] else []) ++ rest.1, rest.2)

/-- `prev_output.iloc[-1, prev_output.columns.isin(keys)]` (model.py lines
128-129): the last row restricted to the columns whose name is one of the
state-variable keys, in the **table's** column order, as a name→value
dict. -/
def restrictRow (cols : List String) (row : List ℚ) (keys : List String) : Dict :=
  (cols.zip row).filter (fun p => keys.contains p.1)

/-- Resume setup of `model.py` (lines 126-129): the time is the previous
table's last `t` value, and both state containers are recovered from the
previous table's last row restricted to the state-variable names. -/
def resumeSetupC (istateKeys : List String) (prev : ResultTable) :
    Option (ℚ × List ℚ × Dict) := do
  let t ← lastColVal prev "t"
  let lastRow ← prev.rows.getLast?
  let d := restrictRow prev.cols lastRow istateKeys
  pure (t, d.map Prod.snd, d)

/-- The `Model` class of `model.py`.  `parameters` is baked into
`input_model` (it is passed unchanged on every call); the scratch caches
`self.differential_return` / `self.variable_returns` are overwritten on
every model call and are never read by any claim, so they are not carried. -/
structure Model where
  istate_vars : Dict
  outputs_list : List String
  input_model : ModelFnC
  differential_variables : List String
  prev_output : Option ResultTable

/-- `Model.runModel` of `model.py`.  A fresh run (`continue_run = false`)
uses `self.istate_vars` itself as `stateVars_dict` (line 104 aliases, it
does not copy), so the Python loop mutates the instance's initial-state
dict in place: the returned model's `istate_vars` is the loop's final
state dict.  A resumed run recovers time and state from
`self.prev_output` via `resumeSetupC` and leaves `istate_vars` untouched.
The method body has no `return` statement, so the Python call evaluates to
`None`: the second component of the result is that return value, and the
produced table is only stored in `prev_output` (line 189). -/
def runModelC (m : Model) (runTime integInt communInt : ℚ)
    (continue_run : Bool) : Except String (Model × Option ResultTable) :=
  let cintAsInt := pytrunc (communInt / integInt)
  let numSteps := (pytrunc (runTime / integInt)).toNat
  let keys := m.istate_vars.map Prod.fst
  if continue_run = false then
    let sl0 := m.istate_vars.map Prod.snd
    let sd0 := m.istate_vars
    let v0 := m.input_model m.istate_vars 0
    let row0 := m.outputs_list.map v0
    let res := runStepsC m.input_model m.differential_variables keys
      m.outputs_list integInt cintAsInt numSteps 0 sl0 sd0 0
    let tbl : ResultTable := ⟨m.outputs_list, row0 :: res.1⟩
    Except.ok ({ m with istate_vars := res.2.1, prev_output := some tbl }, none)
  else
    match m.prev_output with
    | none =>
      Except.error "TypeError: The variable prev_output must be a dataframe if Start == 1"
    | some p =>
      match resumeSetupC keys p with
      | none => Except.error "KeyError: t"
      | some (t0, sl0, sd0) =>
        let res := runStepsC m.input_model m.differential_variables keys
          m.outputs_list integInt cintAsInt numSteps 0 sl0 sd0 t0
        let tbl : ResultTable := ⟨m.outputs_list, p.rows ++ res.1⟩
        Except.ok ({ m with prev_output := some tbl }, none)

/-- `list.remove(x)` on a Python list: drop the first occurrence of `x`,
`none` when `x` is absent (Python raises `ValueError` there). -/
def removeFirst (l : List String) (x : String) : Option (List String) :=
  match l with
  | [] => none
  | a :: rest => if a = x then some rest else (removeFirst rest x).map (a :: ·)

/-- The column check at the top of `plot_model_output`
(`model_summary.py` lines 75-84): drop `'t'` from the observed table's
column names, then raise a `ValueError` naming the first of them that is
not a column of the results table.  The summary statistics of the rest of
the function are only computed after this check passes. -/
def plot_model_output_check (obsCols resCols : List String) :
    Except String Unit :=
  match removeFirst obsCols "t" with
  | none => Except.error "ValueError: list.remove(x): x not in list"
  | some column_names =>
    match column_names.find? (fun n => !resCols.contains n) with
    | some name =>
      Except.error ("Missing the following columns in results: " ++ name)
    | none => Except.ok ()

/-- Modelled from the spec (§4.2 algorithm steps 1-6), for comparison with
the source's step: one classic RK4 step, in which `k2` and `k3` are
evaluated at `t + h/2` and `k4` at `t + h`, with every trial state built
from the same baseline `s0`. -/
def rk4ClassicStep (f : List ℚ → ℚ → List ℚ) (h : ℚ) (s0 : List ℚ) (t : ℚ) :
    List ℚ :=
  let k1 := f s0 t
  let k2 := f (rkTrialHalf h s0 k1) (t + h / 2)
  let k3 := f (rkTrialHalf h s0 k2) (t + h / 2)
  let k4 := f (rkTrialFull h s0 k3) (t + h)
  rkFinal h s0 k1 k2 k3 k4

end ModellingTools

namespace ModellingTools

/-- Value of a key in a state dict (`stateVars['y']`), defaulting to `0`
for absent keys (the concrete models below only read present keys). -/
def dictGet (d : Dict) (k : String) : ℚ :=
  ((d.find? (fun p => p.1 = k)).map Prod.snd).getD 0

/-- Linear decay dy/dt = -y for the class variant: the model returns the
time, echoes the state variable, and computes its derivative. -/
def mfDecayC : ModelFnC := fun sd t n =>
  if n = "t" then t
  else if n = "y" then dictGet sd "y"
  else if n = "dydt" then -(dictGet sd "y")
  else 0

/-- A concrete `Model` instance for the decay model. -/
def decayModel : Model :=
  { istate_vars := [("y", 1)]
    outputs_list := ["t", "y"]
    input_model := mfDecayC
    differential_variables := ["dydt"]
    prev_output := none }

/-- The decay model carrying the table a one-step fresh run stores in
`prev_output`, ready to be resumed. -/
def decayModelWithPrev : Model :=
  { decayModel with prev_output := some ⟨["t", "y"], [[0, 1], [0, 1/4]]⟩ }

/-- The number of sampled rows the outer loop of either variant produces:
one for every step number `i+1, ..., i+n` passing the `sampleHit` test. -/
def commCount (c : ℤ) : ℕ → ℕ → ℕ
  | 0, _ => 0
  | n + 1, i => (if sampleHit (i + 1) c then 1 else 0) + commCount c n (i + 1)

/-- Linear decay dy/dt = -y for the function variant, outputs `["t","y"]`. -/
def mfDecayF : ModelFnF := fun s t => ([-(s.getD 0 0)], [t, s.getD 0 0])

/-- A model with zero derivative for the function variant: the state never
moves, so the state a resumed run actually starts from is visible in every
sampled row. -/
def mfConstF : ModelFnF := fun s t => ([0], [t, s.getD 0 0])

/-- A time-dependent model dy/dt = t for the function variant. -/
def mfTimeF : ModelFnF := fun _ t => ([t], [t])

/-- C1: the recorded Output Row is **not** produced by a dedicated model
evaluation at the newly advanced state and time.  On the decay model with
one step of size 1 from y = 1, the run records the row `[0, 1/4]` — the
fourth RK4 sub-step evaluation, taken at the old time 0 and the trial
state y = 1/4 — while the step's advanced state is y = 3/8 at time 1, where
a dedicated re-evaluation would give the row `[1, 3/8]`. -/
theorem C1_sampled_row_reuses_fourth_eval :
    runModelF 0 1 1 1 ["t", "y"] [1] mfDecayF none =
      Except.ok ⟨["t", "y"], [[0, 1], [0, 1/4]]⟩ ∧
    (rk4StepF mfDecayF 1 [1] 0).varRet = (mfDecayF [1/4] 0).2 ∧
    (runStepsF mfDecayF 1 1 1 0 [1] 0).2 = ([3/8], 1) ∧
    (mfDecayF [3/8] 1).2 = [1, 3/8] ∧
    [(0 : ℚ), 1/4] ≠ [(1 : ℚ), 3/8] := by
  refine ⟨by decide, rfl, by decide, by decide, by decide⟩

/-- C2 counterexample: the engine does not evaluate the model function at
`t + h/2` and `t + h` inside a step.  With dy/dt = t, h = 1, from y = 0 at
t = 0, all four recorded call times are 0 (not 0, 1/2, 1/2, 1), and the
advanced state is 0 where the classic RK4 step of the spec gives 1/2. -/
theorem C2_substep_times_counterexample :
    (rk4StepF mfTimeF 1 [0] 0).calls.map Prod.snd ≠ [0, 1/2, 1/2, 1] ∧
    (rk4StepF mfTimeF 1 [0] 0).newState ≠
      rk4ClassicStep (fun s t => (mfTimeF s t).1) 1 [0] 0 := by
  exact ⟨by decide, by decide⟩

/-- C2 (amended): in every integration step both variants evaluate the
model function four times, all at the step's **start** time `t` (the time
argument is never advanced between sub-steps), while the trial states are
the classic-RK4 ones built from the same baseline `s0`; hence the step
equals the classic RK4 step applied with the time argument frozen at `t`. -/
theorem C2_frozen_time_rk4 (mf : ModelFnF) (mc : ModelFnC)
    (diffVars istateKeys outputs : List String)
    (h : ℚ) (s0 : List ℚ) (sl0 : List ℚ) (sd0 : Dict) (t : ℚ) :
    (rk4StepF mf h s0 t).newState =
      rk4ClassicStep (fun s _ => (mf s t).1) h s0 t ∧
    (rk4StepF mf h s0 t).calls.map Prod.snd = [t, t, t, t] ∧
    (rk4StepC mc diffVars istateKeys outputs h sl0 sd0 t).calls.map Prod.snd =
      [t, t, t, t] :=
  ⟨rfl, rfl, rfl⟩

/-- C3 counterexample: the function variant does not restore the resumed
state from the prior table.  Resuming with prior last row (t = 2, y = 5)
but caller-supplied initial state y = 1, under a zero-derivative model,
produces the new row `[2, 1]`: integration started from the caller-supplied
value 1, not from the table value 5. -/
theorem C3_function_variant_resume_counterexample :
    runModelF 1 1 1 1 ["t", "y"] [1] mfConstF (some ⟨["t", "y"], [[2, 5]]⟩) =
      Except.ok ⟨["t", "y"], [[2, 5], [2, 1]]⟩ ∧
    resumeSetupF [1] ⟨["t", "y"], [[2, 5]]⟩ = some (2, [1]) ∧
    (restrictRow ["t", "y"] [2, 5] ["y"]).map Prod.snd = [5] ∧
    ([1] : List ℚ) ≠ [5] := by
  exact ⟨by decide, by decide, by decide, by decide⟩

/-- C3 (amended): on resume both variants take the simulation time from
the prior table's last `t` value, but only the class variant recovers the
initial state from that table's last row restricted to the state-variable
names; the function variant starts from the caller-supplied initial state
values instead. -/
theorem C3_resume_setup (initial : List ℚ) (prev : ResultTable) (tlast : ℚ)
    (istateKeys : List String) (lastRow : List ℚ)
    (ht : lastColVal prev "t" = some tlast)
    (hr : prev.rows.getLast? = some lastRow) :
    resumeSetupF initial prev = some (tlast, initial) ∧
    resumeSetupC istateKeys prev =
      some (tlast, (restrictRow prev.cols lastRow istateKeys).map Prod.snd,
        restrictRow prev.cols lastRow istateKeys) := by
  constructor
  · simp [resumeSetupF, ht]
  · simp [resumeSetupC, ht, hr]

/-- C3 witness: the amended resume semantics at the concrete prior table
with columns `["t","y"]`, last row (t = 2, y = 5), state key `"y"` and
caller-supplied initial state `[1]`. -/
theorem C3_resume_setup_witness :
    (lastColVal ⟨["t", "y"], [[2, 5]]⟩ "t" = some 2 ∧
      (ResultTable.mk ["t", "y"] [[2, 5]]).rows.getLast? = some [2, 5]) ∧
    (resumeSetupF [1] ⟨["t", "y"], [[2, 5]]⟩ = some (2, [1]) ∧
      resumeSetupC ["y"] ⟨["t", "y"], [[2, 5]]⟩ =
        some (2, (restrictRow ["t", "y"] [2, 5] ["y"]).map Prod.snd,
          restrictRow ["t", "y"] [2, 5] ["y"])) :=
  ⟨⟨by decide, by decide⟩,
    C3_resume_setup [1] ⟨["t", "y"], [[2, 5]]⟩ 2 ["y"] [2, 5] (by decide) (by decide)⟩

/-- C4: splitting a run at an intermediate sample time and resuming does
**not** reproduce the one-pass table.  Decay model, h = 1, sampling every
step: one pass over two steps ends `..., [1, 3/32]`, while running one
step and resuming for one more ends `..., [0, 1/16]` — the resumed run
restarts from the stale recorded row (state 1/4 at recorded time 0)
instead of the true advanced state 3/8 at time 1. -/
theorem C4_split_resume_differs :
    ∃ m1 m2 mo,
      runModelC decayModel 1 1 1 false = Except.ok (m1, none) ∧
      runModelC m1 1 1 1 true = Except.ok (m2, none) ∧
      runModelC decayModel 2 1 1 false = Except.ok (mo, none) ∧
      m2.prev_output = some ⟨["t", "y"], [[0, 1], [0, 1/4], [0, 1/16]]⟩ ∧
      mo.prev_output = some ⟨["t", "y"], [[0, 1], [0, 1/4], [1, 3/32]]⟩ ∧
      m2.prev_output ≠ mo.prev_output :=
  ⟨_, _, _, rfl, rfl, rfl, by decide, by decide, by decide⟩

/-- `int()` of an integer-valued rational is that integer. -/
theorem pytrunc_intCast (z : ℤ) : pytrunc (z : ℚ) = z := by
  simp only [pytrunc, Rat.num_intCast, Rat.den_intCast, Nat.cast_one]
  exact Int.tdiv_one z

/-- `int()` of a natural-valued rational is that natural number. -/
theorem pytrunc_natCast (n : ℕ) : pytrunc (n : ℚ) = (n : ℤ) := by
  have h : ((n : ℤ) : ℚ) = (n : ℚ) := by push_cast; rfl
  rw [← h, pytrunc_intCast]

/-- C5 counterexample: a sample interval that is not an integer multiple
of the step is not rejected.  With step 1 and sample interval 3/2 the
fresh run completes and returns a table (sampling every
`int(3/2) = 1` steps) instead of reporting a configuration error. -/
theorem C5_nonintegral_ratio_accepted :
    pytrunc ((3/2 : ℚ) / 1) = 1 ∧
    runModelF 0 1 1 (3/2) ["t", "y"] [1] mfDecayF none =
      Except.ok ⟨["t", "y"], [[0, 1], [0, 1/4]]⟩ := by
  exact ⟨by decide, by decide⟩

/-- C5 (amended): the engine performs no configuration validation.  A
fresh run completes and returns a Result Table for any duration, step and
sample interval, the non-integer interval/step ratio being silently
truncated by `int()`: the run behaves exactly as if the sample interval
were `int(communInt/integInt) * integInt`.  (The hypothesis
`1 ≤ pytrunc (communInt/integInt)` excludes the `cintAsInt = 0`
configurations, on which the Python loop body dies with a
`ZeroDivisionError` — still not the up-front configuration error the
claim describes.) -/
theorem C5_fresh_run_no_validation (runTime integInt communInt : ℚ)
    (outputs : List String) (initial : List ℚ) (mf : ModelFnF)
    (hii : integInt ≠ 0) (_hc : 1 ≤ pytrunc (communInt / integInt)) :
    ∃ tbl, runModelF 0 runTime integInt communInt outputs initial mf none =
        Except.ok tbl ∧
      runModelF 0 runTime integInt
        ((pytrunc (communInt / integInt) : ℚ) * integInt) outputs initial mf none =
        Except.ok tbl := by
  refine ⟨_, rfl, ?_⟩
  have h1 : ((pytrunc (communInt / integInt) : ℚ) * integInt) / integInt =
      (pytrunc (communInt / integInt) : ℚ) := mul_div_cancel_right₀ _ hii
  unfold runModelF
  rw [h1, pytrunc_intCast]
  rfl

/-- C5 witness: the amended non-validation at the concrete non-integer
ratio 3/2 (step 1, sample interval 3/2). -/
theorem C5_fresh_run_no_validation_witness :
    ((1 : ℚ) ≠ 0 ∧ 1 ≤ pytrunc ((3/2 : ℚ) / 1)) ∧
    ∃ tbl, runModelF 0 1 1 (3/2) ["t", "y"] [1] mfConstF none =
        Except.ok tbl ∧
      runModelF 0 1 1 ((pytrunc ((3/2 : ℚ) / 1) : ℚ) * 1) ["t", "y"] [1]
        mfConstF none = Except.ok tbl :=
  ⟨⟨by decide, by decide⟩,
    C5_fresh_run_no_validation 1 1 (3/2) ["t", "y"] [1] mfConstF
      (by decide) (by decide)⟩

/-- C8 counterexample: `Model.runModel` completes a run but its Python
return value is `None` — the produced table is only stored in
`self.prev_output`, not returned. -/
theorem C8_class_variant_returns_none :
    ∃ m', runModelC decayModel 1 1 1 false = Except.ok (m', none) ∧
      m'.prev_output = some ⟨["t", "y"], [[0, 1], [0, 1/4]]⟩ ∧
      (none : Option ResultTable) ≠ some ⟨["t", "y"], [[0, 1], [0, 1/4]]⟩ :=
  ⟨_, rfl, by decide, by decide⟩

/-- C8 (amended): the function variant returns the produced Result Table;
the class variant never returns one — every completed `Model.runModel`
call evaluates to `None`, the produced table being stored on the instance
as `prev_output`. -/
theorem C8_return_values (runTime integInt communInt : ℚ)
    (outputs : List String) (initial : List ℚ) (mf : ModelFnF)
    (m : Model) (cont : Bool) :
    (∃ tbl, runModelF 0 runTime integInt communInt outputs initial mf none =
      Except.ok tbl) ∧
    (∀ r, runModelC m runTime integInt communInt cont = Except.ok r →
      r.2 = none ∧ r.1.prev_output ≠ none) := by
  refine ⟨⟨_, rfl⟩, ?_⟩
  intro r hr
  cases cont with
  | false =>
    have h := Except.ok.inj hr
    rw [← h]
    exact ⟨rfl, by simp⟩
  | true =>
    cases hpo : m.prev_output with
    | none => simp [runModelC, hpo] at hr
    | some p =>
      cases hres : resumeSetupC (m.istate_vars.map Prod.fst) p with
      | none => simp [runModelC, hpo, hres] at hr
      | some trip =>
        obtain ⟨t0, sl0, sd0⟩ := trip
        simp only [runModelC, hpo, hres] at hr
        have h := Except.ok.inj hr
        rw [← h]
        exact ⟨rfl, by simp⟩

/-- C8 witness: the amended return-value behaviour at a concrete fresh
run of each variant. -/
theorem C8_return_values_witness :
    (∃ tbl, runModelF 0 1 1 1 ["t", "y"] [1] mfDecayF none = Except.ok tbl) ∧
    (∀ r, runModelC decayModel 1 1 1 false = Except.ok r →
      r.2 = none ∧ r.1.prev_output ≠ none) :=
  C8_return_values 1 1 1 ["t", "y"] [1] mfDecayF decayModel false

/-- C9: a fresh `Model.runModel` run uses `self.istate_vars` itself as its
working state dict (line 104 aliases it) and mutates it in place, so the
model left behind holds the integration loop's final state dict in
`istate_vars` — concretely, after one decay step the instance's
initial-state mapping has become y = 3/8, no longer the declared y = 1. -/
theorem C9_istate_vars_mutated :
    (∀ (m : Model) (runTime integInt communInt : ℚ),
      ∃ m', runModelC m runTime integInt communInt false = Except.ok (m', none) ∧
        m'.istate_vars =
          (runStepsC m.input_model m.differential_variables
            (m.istate_vars.map Prod.fst) m.outputs_list integInt
            (pytrunc (communInt / integInt)) (pytrunc (runTime / integInt)).toNat
            0 (m.istate_vars.map Prod.snd) m.istate_vars 0).2.1) ∧
    (∃ m', runModelC decayModel 1 1 1 false = Except.ok (m', none) ∧
      m'.istate_vars = [("y", 3/8)] ∧ decayModel.istate_vars = [("y", 1)] ∧
      m'.istate_vars ≠ decayModel.istate_vars) :=
  ⟨fun m runTime integInt communInt => ⟨_, rfl, rfl⟩,
    ⟨_, rfl, by decide, by decide, by decide⟩⟩

/-- C6: a fresh run's first recorded row is the t = 0 pre-integration
evaluation of the model function at the initial state, followed only by
the loop's sampled rows; a resumed run emits no t = 0 row — its table is
exactly the prior table's rows followed by the loop's newly sampled rows.
Holds for both variants (`c` and `nsteps` name the truncated sampling
ratio and step count). -/
theorem C6_first_row_and_concat
    (mf : ModelFnF) (outputs : List String) (initial : List ℚ)
    (runTime integInt communInt : ℚ) (c : ℤ) (nsteps : ℕ)
    (prev : ResultTable) (tlast : ℚ)
    (m : Model) (p : ResultTable) (t0 : ℚ) (sl0 : List ℚ) (sd0 : Dict)
    (hcint : pytrunc (communInt / integInt) = c)
    (hn : (pytrunc (runTime / integInt)).toNat = nsteps)
    (hres : resumeSetupF initial prev = some (tlast, initial))
    (hp : m.prev_output = some p)
    (hresC : resumeSetupC (m.istate_vars.map Prod.fst) p = some (t0, sl0, sd0)) :
    runModelF 0 runTime integInt communInt outputs initial mf none =
      Except.ok ⟨outputs,
        (mf initial 0).2 :: (runStepsF mf integInt c nsteps 0 initial 0).1⟩ ∧
    runModelF 1 runTime integInt communInt outputs initial mf (some prev) =
      Except.ok ⟨outputs,
        prev.rows ++ (runStepsF mf integInt c nsteps 0 initial tlast).1⟩ ∧
    (∃ m', runModelC m runTime integInt communInt false = Except.ok (m', none) ∧
      m'.prev_output = some ⟨m.outputs_list,
        (m.outputs_list.map (m.input_model m.istate_vars 0)) ::
        (runStepsC m.input_model m.differential_variables
          (m.istate_vars.map Prod.fst) m.outputs_list integInt c nsteps 0
          (m.istate_vars.map Prod.snd) m.istate_vars 0).1⟩) ∧
    (∃ m', runModelC m runTime integInt communInt true = Except.ok (m', none) ∧
      m'.prev_output = some ⟨m.outputs_list, p.rows ++
        (runStepsC m.input_model m.differential_variables
          (m.istate_vars.map Prod.fst) m.outputs_list integInt c nsteps 0
          sl0 sd0 t0).1⟩) := by
  subst hcint hn
  refine ⟨rfl, ?_, ⟨_, rfl, rfl⟩, ?_⟩
  · have h1 : runModelF 1 runTime integInt communInt outputs initial mf (some prev) =
        (match resumeSetupF initial prev with
         | none => Except.error "KeyError: t"
         | some (t0, s0) =>
             Except.ok ⟨outputs, prev.rows ++
               (runStepsF mf integInt (pytrunc (communInt / integInt))
                 (pytrunc (runTime / integInt)).toNat 0 s0 t0).1⟩) := rfl
    rw [hres] at h1
    exact h1
  · have h1 : runModelC m runTime integInt communInt true =
        (match resumeSetupC (m.istate_vars.map Prod.fst) p with
         | none => Except.error "KeyError: t"
         | some (t0, sl0, sd0) =>
             Except.ok ({ m with prev_output := some ⟨m.outputs_list, p.rows ++
               (runStepsC m.input_model m.differential_variables
                 (m.istate_vars.map Prod.fst) m.outputs_list integInt
                 (pytrunc (communInt / integInt))
                 (pytrunc (runTime / integInt)).toNat 0 sl0 sd0 t0).1⟩ }, none)) := by
      unfold runModelC
      rw [hp]
      rfl
    rw [hresC] at h1
    exact ⟨_, h1, rfl⟩

/-- C6 witness: the fresh/resume row structure at concrete runs — the
function variant resuming from a table with last row (t = 2, y = 5), and
the class variant resuming from the stored table ending (0, 1/4). -/
theorem C6_first_row_and_concat_witness :
    (pytrunc ((1 : ℚ) / 1) = 1 ∧ (pytrunc ((1 : ℚ) / 1)).toNat = 1 ∧
      resumeSetupF [1] ⟨["t", "y"], [[2, 5]]⟩ = some (2, [1]) ∧
      decayModelWithPrev.prev_output = some ⟨["t", "y"], [[0, 1], [0, 1/4]]⟩ ∧
      resumeSetupC (decayModelWithPrev.istate_vars.map Prod.fst)
        ⟨["t", "y"], [[0, 1], [0, 1/4]]⟩ = some (0, [1/4], [("y", 1/4)])) ∧
    (runModelF 0 1 1 1 ["t", "y"] [1] mfConstF none =
      Except.ok ⟨["t", "y"],
        (mfConstF [1] 0).2 :: (runStepsF mfConstF 1 1 1 0 [1] 0).1⟩ ∧
    runModelF 1 1 1 1 ["t", "y"] [1] mfConstF (some ⟨["t", "y"], [[2, 5]]⟩) =
      Except.ok ⟨["t", "y"],
        (ResultTable.mk ["t", "y"] [[2, 5]]).rows ++
          (runStepsF mfConstF 1 1 1 0 [1] 2).1⟩ ∧
    (∃ m', runModelC decayModelWithPrev 1 1 1 false = Except.ok (m', none) ∧
      m'.prev_output = some ⟨decayModelWithPrev.outputs_list,
        (decayModelWithPrev.outputs_list.map
          (decayModelWithPrev.input_model decayModelWithPrev.istate_vars 0)) ::
        (runStepsC decayModelWithPrev.input_model
          decayModelWithPrev.differential_variables
          (decayModelWithPrev.istate_vars.map Prod.fst)
          decayModelWithPrev.outputs_list 1 1 1 0
          (decayModelWithPrev.istate_vars.map Prod.snd)
          decayModelWithPrev.istate_vars 0).1⟩) ∧
    (∃ m', runModelC decayModelWithPrev 1 1 1 true = Except.ok (m', none) ∧
      m'.prev_output = some ⟨decayModelWithPrev.outputs_list,
        (ResultTable.mk ["t", "y"] [[0, 1], [0, 1/4]]).rows ++
        (runStepsC decayModelWithPrev.input_model
          decayModelWithPrev.differential_variables
          (decayModelWithPrev.istate_vars.map Prod.fst)
          decayModelWithPrev.outputs_list 1 1 1 0
          [1/4] [("y", 1/4)] 0).1⟩)) :=
  ⟨⟨by decide, by decide, by decide, by decide, by decide⟩,
    C6_first_row_and_concat mfConstF ["t", "y"] [1] 1 1 1 1 1
      ⟨["t", "y"], [[2, 5]]⟩ 2 decayModelWithPrev
      ⟨["t", "y"], [[0, 1], [0, 1/4]]⟩ 0 [1/4] [("y", 1/4)]
      (by decide) (by decide) (by decide) (by decide) (by decide)⟩

theorem removeFirst_isSome {l : List String} {x : String} (h : x ∈ l) :
    ∃ l', removeFirst l x = some l' := by
  induction l with
  | nil => cases h
  | cons a rest ih =>
    by_cases hax : a = x
    · exact ⟨rest, by simp [removeFirst, hax]⟩
    · rcases List.mem_cons.mp h with h' | h'
      · exact absurd h'.symm hax
      · obtain ⟨l', hl'⟩ := ih h'
        exact ⟨a :: l', by simp [removeFirst, hax, hl']⟩

theorem mem_removeFirst_of_ne {l l' : List String} {x a : String}
    (h : removeFirst l x = some l') (ha : a ∈ l) (hne : a ≠ x) : a ∈ l' := by
  induction l generalizing l' with
  | nil => simp [removeFirst] at h
  | cons b rest ih =>
    by_cases hbx : b = x
    · simp only [removeFirst, if_pos hbx, Option.some.injEq] at h
      rcases List.mem_cons.mp ha with h' | h'
      · exact absurd (h' ▸ hbx) hne
      · exact h ▸ h'
    · simp only [removeFirst, if_neg hbx, Option.map_eq_some'] at h
      obtain ⟨l'', hl'', rfl⟩ := h
      rcases List.mem_cons.mp ha with h' | h'
      · exact h' ▸ List.mem_cons_self b l''
      · exact List.mem_cons_of_mem b (ih hl'' h')

theorem mem_of_removeFirst {l l' : List String} {x a : String}
    (h : removeFirst l x = some l') (ha : a ∈ l') : a ∈ l := by
  induction l generalizing l' with
  | nil => simp [removeFirst] at h
  | cons b rest ih =>
    by_cases hbx : b = x
    · simp only [removeFirst, if_pos hbx, Option.some.injEq] at h
      exact List.mem_cons_of_mem b (h ▸ ha)
    · simp only [removeFirst, if_neg hbx, Option.map_eq_some'] at h
      obtain ⟨l'', hl'', rfl⟩ := h
      rcases List.mem_cons.mp ha with h' | h'
      · exact h' ▸ List.mem_cons_self b rest
      · exact List.mem_cons_of_mem b (ih hl'' h')

theorem find?_exists {l : List String} {p : String → Bool}
    (h : ∃ x ∈ l, p x) : ∃ m, l.find? p = some m ∧ m ∈ l ∧ p m = true := by
  induction l with
  | nil =>
    obtain ⟨x, hx, _⟩ := h
    cases hx
  | cons a rest ih =>
    by_cases hpa : p a
    · exact ⟨a, List.find?_cons_of_pos rest hpa, List.mem_cons_self a rest, hpa⟩
    · obtain ⟨x, hx, hpx⟩ := h
      rcases List.mem_cons.mp hx with rfl | hx'
      · exact absurd hpx hpa
      · obtain ⟨m, hm, hml, hpm⟩ := ih ⟨x, hx', hpx⟩
        exact ⟨m, by rw [List.find?_cons_of_neg rest hpa]; exact hm,
          List.mem_cons_of_mem a hml, hpm⟩

/-- C10: whenever some non-time column of the observed table is missing
from the results table, `plot_model_output` raises a `ValueError` naming a
missing column — before any statistic is computed (the check is the first
thing the function does). -/
theorem C10_missing_column_error (obsCols resCols : List String) (name : String)
    (hts : "t" ∈ obsCols) (hmem : name ∈ obsCols) (hnt : name ≠ "t")
    (hmiss : name ∉ resCols) :
    ∃ missing,
      plot_model_output_check obsCols resCols =
        Except.error ("Missing the following columns in results: " ++ missing) ∧
      missing ∈ obsCols ∧ missing ∉ resCols := by
  obtain ⟨l, hl⟩ := removeFirst_isSome hts
  have hnl : name ∈ l := mem_removeFirst_of_ne hl hmem hnt
  have hx : ∃ x ∈ l, (!resCols.contains x) = true := ⟨name, hnl, by simp [hmiss]⟩
  obtain ⟨missing, hm, hml, hpm⟩ := find?_exists hx
  refine ⟨missing, ?_, mem_of_removeFirst hl hml, by simpa using hpm⟩
  simp only [plot_model_output_check, hl, hm]

/-- C10 witness: observed columns `["t","y"]` against result columns
`["z"]`: the check fails naming a concrete missing column. -/
theorem C10_missing_column_error_witness :
    ("t" ∈ ["t", "y"] ∧ "y" ∈ ["t", "y"] ∧ "y" ≠ "t" ∧ "y" ∉ ["z"]) ∧
    ∃ missing,
      plot_model_output_check ["t", "y"] ["z"] =
        Except.error ("Missing the following columns in results: " ++ missing) ∧
      missing ∈ ["t", "y"] ∧ missing ∉ ["z"] :=
  ⟨⟨by decide, by decide, by decide, by decide⟩,
    C10_missing_column_error ["t", "y"] ["z"] "y"
      (by decide) (by decide) (by decide) (by decide)⟩

theorem runStepsF_length (mf : ModelFnF) (h : ℚ) (c : ℤ) :
    ∀ (n i : ℕ) (s : List ℚ) (t : ℚ),
      (runStepsF mf h c n i s t).1.length = commCount c n i := by
  intro n
  induction n with
  | zero => intro i s t; rfl
  | succ n ih =>
    intro i s t
    by_cases hs : sampleHit (i + 1) c
    · simp [runStepsF, commCount, hs, ih]
      omega
    · simp [runStepsF, commCount, hs, ih]

theorem runStepsC_length (mc : ModelFnC) (dv ik out : List String)
    (h : ℚ) (c : ℤ) :
    ∀ (n i : ℕ) (sl : List ℚ) (sd : Dict) (t : ℚ),
      (runStepsC mc dv ik out h c n i sl sd t).1.length = commCount c n i := by
  intro n
  induction n with
  | zero => intro i sl sd t; rfl
  | succ n ih =>
    intro i sl sd t
    by_cases hs : sampleHit (i + 1) c
    · simp [runStepsC, commCount, hs, ih]
      omega
    · simp [runStepsC, commCount, hs, ih]

/-- The modulus test of the source (`(intervalNo+1)/cintAsInt ==
int((intervalNo+1)/cintAsInt)` over exact rationals) holds exactly on the
step numbers divisible by the truncated ratio. -/
theorem sampleHit_natCast (cn : ℕ) (hc : 1 ≤ cn) (k : ℕ) :
    sampleHit k (cn : ℤ) = true ↔ cn ∣ k := by
  have hcq : ((cn : ℤ) : ℚ) = (cn : ℚ) := by push_cast; rfl
  have hcn0 : (cn : ℚ) ≠ 0 := Nat.cast_ne_zero.mpr (by omega)
  rw [sampleHit, decide_eq_true_iff, hcq]
  constructor
  · intro hq
    have hq' : (k : ℚ) / (cn : ℚ) = ((pytrunc ((k : ℚ) / (cn : ℚ))) : ℚ) :=
      sub_eq_zero.mp hq
    have hk : (k : ℚ) = ((pytrunc ((k : ℚ) / (cn : ℚ))) : ℚ) * (cn : ℚ) :=
      (div_eq_iff hcn0).mp hq'
    have hkz : (k : ℤ) = pytrunc ((k : ℚ) / (cn : ℚ)) * (cn : ℤ) := by
      exact_mod_cast hk
    have hdvd : (cn : ℤ) ∣ (k : ℤ) :=
      ⟨pytrunc ((k : ℚ) / (cn : ℚ)), by rw [hkz]; ring⟩
    exact_mod_cast hdvd
  · rintro ⟨j, rfl⟩
    have hq : ((cn * j : ℕ) : ℚ) / (cn : ℚ) = ((j : ℕ) : ℚ) := by
      push_cast
      rw [mul_comm]
      exact mul_div_cancel_right₀ _ hcn0
    rw [hq, pytrunc_natCast]
    push_cast
    ring

theorem commCount_eq_div (cn : ℕ) (hc : 1 ≤ cn) :
    ∀ n i, commCount (cn : ℤ) n i = (i + n) / cn - i / cn := by
  intro n
  induction n with
  | zero => intro i; simp [commCount]
  | succ n ih =>
    intro i
    have hiter : commCount (cn : ℤ) (n + 1) i =
        (if cn ∣ (i + 1) then 1 else 0) + commCount (cn : ℤ) n (i + 1) := by
      simp only [commCount, sampleHit_natCast cn hc]
    rw [hiter, ih]
    have h1 : (i + 1) / cn = i / cn + if cn ∣ (i + 1) then 1 else 0 :=
      Nat.succ_div i cn
    have h2 : (i + 1) / cn ≤ (i + 1 + n) / cn :=
      Nat.div_le_div_right (by omega)
    have h3 : i + (n + 1) = i + 1 + n := by omega
    rw [h3]
    by_cases hd : cn ∣ (i + 1)
    · rw [if_pos hd] at h1 ⊢
      revert h1 h2
      generalize (i + 1 + n) / cn = A
      generalize (i + 1) / cn = B
      generalize i / cn = C
      intro h1 h2
      omega
    · rw [if_neg hd] at h1 ⊢
      revert h1 h2
      generalize (i + 1 + n) / cn = A
      generalize (i + 1) / cn = B
      generalize i / cn = C
      intro h1 h2
      omega

/-- C7: when the duration is `m` sample intervals and the sample interval
is `cn ≥ 1` steps, a fresh run of either variant produces a Result Table
of exactly `1 + m = 1 + duration/sample_interval` rows. -/
theorem C7_row_count (cn m : ℕ) (integInt : ℚ) (outputs : List String)
    (initial : List ℚ) (mf : ModelFnF) (mdl : Model)
    (hc : 1 ≤ cn) (hii : integInt ≠ 0) :
    (∃ tbl, runModelF 0 ((m : ℚ) * ((cn : ℚ) * integInt)) integInt
        ((cn : ℚ) * integInt) outputs initial mf none = Except.ok tbl ∧
      tbl.rows.length = 1 + m) ∧
    (∃ m' tbl, runModelC mdl ((m : ℚ) * ((cn : ℚ) * integInt)) integInt
        ((cn : ℚ) * integInt) false = Except.ok (m', none) ∧
      m'.prev_output = some tbl ∧ tbl.rows.length = 1 + m) := by
  have hcint : pytrunc (((cn : ℚ) * integInt) / integInt) = (cn : ℤ) := by
    rw [mul_div_cancel_right₀ _ hii, pytrunc_natCast]
  have hratio : ((m : ℚ) * ((cn : ℚ) * integInt)) / integInt = ((m * cn : ℕ) : ℚ) := by
    push_cast
    field_simp
    ring
  have hsteps : (pytrunc (((m : ℚ) * ((cn : ℚ) * integInt)) / integInt)).toNat =
      m * cn := by
    rw [hratio, pytrunc_natCast]
    omega
  have hlen : commCount (cn : ℤ) (m * cn) 0 = m := by
    rw [commCount_eq_div cn hc]
    simp [Nat.mul_div_cancel m (by omega : 0 < cn)]
  refine ⟨⟨_, rfl, ?_⟩, ⟨_, _, rfl, rfl, ?_⟩⟩
  · rw [show (ResultTable.mk outputs _).rows = _ :: _ from rfl, List.length_cons,
      hcint, hsteps, runStepsF_length, hlen]
    omega
  · rw [show (ResultTable.mk mdl.outputs_list _).rows = _ :: _ from rfl,
      List.length_cons, hcint, hsteps, runStepsC_length, hlen]
    omega

/-- C7 witness: two sample intervals of one step each (`cn = 1`, `m = 2`,
step 1) on the decay model: three rows. -/
theorem C7_row_count_witness :
    ((1 : ℕ) ≤ 1 ∧ (1 : ℚ) ≠ 0) ∧
    (∃ tbl, runModelF 0 (((2 : ℕ) : ℚ) * (((1 : ℕ) : ℚ) * 1)) 1
        (((1 : ℕ) : ℚ) * 1) ["t", "y"] [1] mfDecayF none = Except.ok tbl ∧
      tbl.rows.length = 1 + 2) ∧
    (∃ m' tbl, runModelC decayModel (((2 : ℕ) : ℚ) * (((1 : ℕ) : ℚ) * 1)) 1
        (((1 : ℕ) : ℚ) * 1) false = Except.ok (m', none) ∧
      m'.prev_output = some tbl ∧ tbl.rows.length = 1 + 2) :=
  ⟨⟨by decide, by decide⟩,
    C7_row_count 1 2 1 ["t", "y"] [1] mfDecayF decayModel (by decide) (by decide)⟩

end ModellingTools
